import Mathlib

/-!
Verification of the `RaceStartlist` scraper
(`procyclingstats/race_startlist_scraper.py`).

The development shallowly embeds the `startlist` method and its
collaborators.  HTML documents are modelled as a tree of element nodes
(tag, attribute list, direct text, children); CSS selection is modelled
by executable tree traversals covering exactly the selectors the source
uses (`.startlist_v3`, `li.team`, `.page-content > div`, `a:not([class])`,
`ul`, `li`, `a`).  Python runtime failures (AttributeError on a `None`
node, KeyError on a missing attribute, ValueError from `int(...)` and
from field validation) are modelled by an `Except` monad.

Collaborators that live outside the scraper module
(`utils.parse_table_fields_args`, `utils.normalize_race_url`,
`TableParser.parse` / `TableParser.extend_table`) are modelled from the
specification's description of them; each such definition is marked
`Modelled from the spec:` in its doc comment.
-/

/-- A Python value occurring in a startlist record: `None`, a string, or
an integer. -/
inductive Value : Type where
  | vnone
  | vstr (s : String)
  | vint (n : Int)
deriving DecidableEq, Repr

/-- Python exceptions / error outcomes the embedded code can produce. -/
inductive PyErr : Type where
  | attributeError
  | keyError (k : String)
  | valueError (msg : String)
  | malformedPage (msg : String)
deriving DecidableEq, Repr

/-- A rider record: a Python dict, modelled as an insertion-ordered
association list. -/
abbrev Record : Type := List (String × Value)

/-- Python dict assignment `d[k] = v`: overwrite in place when the key is
present, append otherwise. -/
def dictSet : Record → String → Value → Record
  | [], k, v => [(k, v)]
  | p :: ps, k, v => if p.1 = k then (k, v) :: ps else p :: dictSet ps k v

/-- Python dict read `d[k]` (as an `Option`). -/
def dictGet : Record → String → Option Value
  | [], _ => Option.none
  | p :: ps, k => if p.1 = k then some p.2 else dictGet ps k

/-- The key list of a record (Python `d.keys()`, insertion order). -/
def keys (r : Record) : List String := r.map Prod.fst

/-- Split a character list on a separator, keeping empty chunks, like
Python `str.split(sep)` for a one-character separator. -/
def splitChars (sep : Char) : List Char → List (List Char)
  | [] => [[]]
  | c :: cs =>
    let r := splitChars sep cs
    if c = sep then [] :: r
    else
      match r with
      | [] => [[c]]
      | g :: gs => (c :: g) :: gs

/-- Numeric value of a digit list (most significant first). -/
def digitsVal (cs : List Char) : Nat :=
  cs.foldl (fun a c => a * 10 + (c.toNat - 48)) 0

/-- Python `int(str)` on a character list: strip surrounding whitespace,
allow an optional sign, require at least one digit; otherwise raise
`ValueError`. -/
def pyIntCore (cs : List Char) : Except PyErr Int :=
  let t := ((cs.dropWhile Char.isWhitespace).reverse.dropWhile Char.isWhitespace).reverse
  match t with
  | '-' :: ds =>
    if (!ds.isEmpty) && ds.all Char.isDigit then .ok (-(Int.ofNat (digitsVal ds)))
    else .error (.valueError (String.mk cs))
  | '+' :: ds =>
    if (!ds.isEmpty) && ds.all Char.isDigit then .ok (Int.ofNat (digitsVal ds))
    else .error (.valueError (String.mk cs))
  | ds =>
    if (!ds.isEmpty) && ds.all Char.isDigit then .ok (Int.ofNat (digitsVal ds))
    else .error (.valueError (String.mk cs))

/-- Python `int(str)`. -/
def pyInt (s : String) : Except PyErr Int := pyIntCore s.toList

mutual
/-- An HTML element node: tag name, attribute list (an attribute's value
may be `None`, as in selectolax), the node's own (shallow) text, and its
element children in document order. -/
inductive Node : Type where
  | mk (tag : String) (attrs : List (String × Option String)) (text : String)
       (children : NodeList)
/-- A list of element nodes (spelled out so that structural recursion over
the tree is available). -/
inductive NodeList : Type where
  | nil
  | cons (n : Node) (ns : NodeList)
end

/-- Tag name of a node. -/
def Node.tag : Node → String
  | .mk t _ _ _ => t

/-- Attribute list of a node. -/
def Node.attrs : Node → List (String × Option String)
  | .mk _ a _ _ => a

/-- Shallow text of a node (selectolax `node.text(deep=False)`). -/
def Node.text : Node → String
  | .mk _ _ x _ => x

/-- Children of a node. -/
def Node.childList : Node → NodeList
  | .mk _ _ _ cs => cs

/-- Attribute lookup in an attribute list. -/
def lookupAttr : List (String × Option String) → String → Option (Option String)
  | [], _ => Option.none
  | p :: ps, k => if p.1 = k then some p.2 else lookupAttr ps k

/-- `node.attributes[k]` presence and value: `Option.none` when the
attribute is absent (a Python `KeyError` on subscript access), otherwise
the attribute's possibly-`None` value. -/
def getAttr (n : Node) (k : String) : Option (Option String) :=
  lookupAttr n.attrs k

mutual
/-- All strict descendants of a node, in document (pre-)order. -/
def descendants : Node → List Node
  | .mk _ _ _ cs => descendantsL cs
/-- All nodes of a node list together with their descendants, in document
order. -/
def descendantsL : NodeList → List Node
  | .nil => []
  | .cons n ns => n :: (descendants n ++ descendantsL ns)
end

mutual
/-- Full text of a node's subtree (selectolax `node.text()`). -/
def textDeep : Node → String
  | .mk _ _ t cs => t ++ textDeepL cs
/-- Concatenated full text of a node list. -/
def textDeepL : NodeList → String
  | .nil => ""
  | .cons n ns => textDeep n ++ textDeepL ns
end

/-- The class tokens of a node, split from its `class` attribute. -/
def classTokens (n : Node) : List String :=
  match getAttr n "class" with
  | some (some s) =>
    ((splitChars ' ' s.toList).map (fun g => String.mk g)).filter (fun t => t ≠ "")
  | _ => []

/-- CSS class test (`.c` selector component). -/
def hasClass (n : Node) (c : String) : Bool := (classTokens n).contains c

/-- Selector `.startlist_v3`. -/
def isStartlistV3 (n : Node) : Bool := hasClass n "startlist_v3"

/-- Selector `li.team`. -/
def isTeamLi (n : Node) : Bool := n.tag == "li" && hasClass n "team"

/-- Selector `ul`. -/
def isUl (n : Node) : Bool := n.tag == "ul"

/-- Selector `li`. -/
def isLi (n : Node) : Bool := n.tag == "li"

/-- Selector `a`. -/
def isA (n : Node) : Bool := n.tag == "a"

/-- Selector `a:not([class])`: an anchor carrying no `class` attribute at
all. -/
def unclassedAnchor (n : Node) : Bool :=
  n.tag == "a" && (getAttr n "class").isNone

/-- Selector `.page-content`. -/
def isPageContent (n : Node) : Bool := hasClass n "page-content"

/-- Selector `div`. -/
def isDiv (n : Node) : Bool := n.tag == "div"

/-- `node.css(sel)` for a simple selector: matching strict descendants in
document order. -/
def selectAll (p : Node → Bool) (n : Node) : List Node :=
  (descendants n).filter p

/-- `node.css_first(sel)` for a simple selector. -/
def cssFirst (p : Node → Bool) (n : Node) : Option Node :=
  (selectAll p n).head?

mutual
/-- `node.css("P > C")`: descendants matching `C` whose parent matches
`P`, in document order. -/
def selectChild (pp pc : Node → Bool) : Node → List Node
  | .mk t a x cs => selectChildL pp pc (Node.mk t a x cs) cs
/-- Helper for `selectChild`: scan the children of `parent`. -/
def selectChildL (pp pc : Node → Bool) : Node → NodeList → List Node
  | _, .nil => []
  | parent, .cons c cs =>
    (if pp parent && pc c then [c] else []) ++
      selectChild pp pc c ++ selectChildL pp pc parent cs
end

/-- Sequential effectful map over `Except`, stopping at the first error
(the semantics of a Python `for` loop that may raise). -/
def mapE (f : α → Except PyErr β) : List α → Except PyErr (List β)
  | [] => .ok []
  | a :: as =>
    match f a with
    | .error e => .error e
    | .ok b =>
      match mapE f as with
      | .error e => .error e
      | .ok bs => .ok (b :: bs)

/-- Python `enumerate` starting at `i`. -/
def enumFrom (i : Nat) : List α → List (Nat × α)
  | [] => []
  | a :: as => (i, a) :: enumFrom (i + 1) as

/-- The `available_fields` default of `RaceStartlist.startlist`
(source lines 48–54), in declaration order. -/
def availableFields : List String :=
  ["rider_name", "rider_url", "team_name", "team_url", "nationality",
   "rider_number"]

/-- Modelled from the spec: `utils.parse_table_fields_args` is not in
`src/`.  Per the Field Projection Validator contract: empty input yields
the full supported set; any requested name outside the supported set
fails with `UnsupportedField` (a `ValueError`) identifying the offending
name(s); the result deduplicates while preserving supported-set canonical
order. -/
def parse_table_fields_args (args available : List String) :
    Except PyErr (List String) :=
  if args.filter (fun a => decide (a ∉ available)) ≠ [] then
    .error (.valueError (", ".intercalate (args.filter (fun a => decide (a ∉ available)))))
  else if args = [] then .ok available
  else .ok (available.filter (fun f => decide (f ∈ args)))

/-- The three rider-level fields parsed from the nested team list
(source lines 91–95). -/
def casual_rider_fields : List String := ["rider_name", "rider_url", "nationality"]

/-- Modelled from the spec: the per-field selector/attribute mapping of
the table-projection capability (`TableParser`, not in `src/`):
`rider_name` is the text of the list item's first anchor, `rider_url` its
`href`, `nationality` the flag token of the item's first flag element. -/
def casualValue (field : String) (li : Node) : Value :=
  if field = "rider_name" then
    match cssFirst isA li with
    | some a => .vstr (textDeep a)
    | Option.none => .vnone
  else if field = "rider_url" then
    match cssFirst isA li with
    | some a =>
      match getAttr a "href" with
      | some (some h) => .vstr h
      | _ => .vnone
    | Option.none => .vnone
  else
    match cssFirst (fun n => hasClass n "flags") li with
    | some f =>
      match ((classTokens f).filter (fun t => t ≠ "flags")).head? with
      | some nat => .vstr nat
      | Option.none => .vnone
    | Option.none => .vnone

/-- Modelled from the spec: `TableParser.parse` (not in `src/`).  Each
list item of the nested rider list yields one partial record with exactly
the requested rider-level fields; when no rider-level field is requested
the step is a no-op and the partial table is empty. -/
def tpParse (riders_table : Node) (fields : List String) : List Record :=
  if fields = [] then []
  else (selectAll isLi riders_table).map
    (fun li => fields.map (fun f => (f, casualValue f li)))

/-- Modelled from the spec: `TableParser.extend_table` (not in `src/`).
It appends a new column of externally computed values to every row by
position; on an empty table the number/team-attribute steps must still
produce rows, so the values seed the table; a row-count/value-count
mismatch is a data-integrity condition treated as fatal
(`MalformedPage`) rather than silently misaligning records. -/
def extend_table (t : List Record) (field : String) (values : List Value) :
    Except PyErr (List Record) :=
  if t.isEmpty then .ok (values.map (fun v => [(field, v)]))
  else if t.length = values.length then
    .ok ((t.zip values).map (fun p => dictSet p.1 field p.2))
  else .error (.malformedPage "column length mismatch")

/-- The leading whitespace-delimited token of a list item's shallow text
(source line 107: `li.text(deep=False).split(" ")[0]`). -/
def leadingToken (li : Node) : String :=
  String.mk ((splitChars ' ' li.text.toList).headD [])

/-- The rider numbers of one team: `int` of each list item's leading
token (source lines 105–108). -/
def teamNumbers (ul : Node) : Except PyErr (List Value) :=
  match mapE (fun li => pyInt (leadingToken li)) (selectAll isLi ul) with
  | .error e => .error e
  | .ok ns => .ok (ns.map Value.vint)

/-- Source lines 104–109: attach rider numbers when requested. -/
def numberStep (fields : List String) (ul : Node) (t : List Record) :
    Except PyErr (List Record) :=
  if "rider_number" ∈ fields then
    match teamNumbers ul with
    | .error e => .error e
    | .ok vs => extend_table t "rider_number" vs
  else .ok t

/-- Source lines 110–114: broadcast the team's primary anchor text when
`team_name` is requested (`css_first("a")` on a missing anchor is a
Python `AttributeError`). -/
def teamNameStep (fields : List String) (team : Node) (t : List Record) :
    Except PyErr (List Record) :=
  if "team_name" ∈ fields then
    match cssFirst isA team with
    | Option.none => .error .attributeError
    | some a =>
      extend_table t "team_name" (List.replicate t.length (Value.vstr (textDeep a)))
  else .ok t

/-- `None`-or-string attribute value as a record `Value`. -/
def optToValue : Option String → Value
  | Option.none => .vnone
  | some s => .vstr s

/-- Source lines 115–119: broadcast the team's primary anchor `href` when
`team_url` is requested (missing anchor: `AttributeError`; anchor without
an `href` attribute: `KeyError`). -/
def teamUrlStep (fields : List String) (team : Node) (t : List Record) :
    Except PyErr (List Record) :=
  if "team_url" ∈ fields then
    match cssFirst isA team with
    | Option.none => .error .attributeError
    | some a =>
      match getAttr a "href" with
      | Option.none => .error (.keyError "href")
      | some v => extend_table t "team_url" (List.replicate t.length (optToValue v))
  else .ok t

/-- Processing of one `li.team` node (source lines 98–121): locate the
nested rider list (its absence is the spec's `MalformedPage` structural
condition), parse the requested rider-level fields, then run the
number/team-name/team-url steps. -/
def perTeam (fields : List String) (team : Node) : Except PyErr (List Record) :=
  match cssFirst isUl team with
  | Option.none => .error (.malformedPage "team group without nested rider list")
  | some ul =>
    match numberStep fields ul
        (tpParse ul (casual_rider_fields.filter (fun f => decide (f ∈ fields)))) with
    | .error e => .error e
    | .ok t1 =>
      match teamNameStep fields team t1 with
      | .error e => .error e
      | .ok t2 => teamUrlStep fields team t2

/-- One row of the individual-layout table (source lines 72–88): a dict
seeded with `None` for every requested field, then `rider_url` (a missing
`href` attribute is a Python `KeyError`), `rider_name`, `rider_number`
(`i + 1`), and explicit `None` for the team fields and nationality. -/
def individualRow (fields : List String) (i : Nat) (ra : Node) :
    Except PyErr Record :=
  let base : Record := fields.map (fun f => (f, Value.vnone))
  match
    (if "rider_url" ∈ fields then
      match getAttr ra "href" with
      | Option.none => .error (.keyError "href")
      | some v => .ok (dictSet base "rider_url" (optToValue v))
    else .ok base : Except PyErr Record) with
  | .error e => .error e
  | .ok r1 =>
    let r2 := if "rider_name" ∈ fields then
        dictSet r1 "rider_name" (.vstr (textDeep ra)) else r1
    let r3 := if "rider_number" ∈ fields then
        dictSet r2 "rider_number" (.vint (Int.ofNat i + 1)) else r2
    let r4 := if "team_name" ∈ fields then dictSet r3 "team_name" .vnone else r3
    let r5 := if "team_url" ∈ fields then dictSet r4 "team_url" .vnone else r4
    .ok (if "nationality" ∈ fields then dictSet r5 "nationality" .vnone else r5)

/-- The individual-layout table (source lines 70–89): one record per
unclassed anchor, in document order, numbered from 1. -/
def individualTable (fields : List String) (anchors : List Node) :
    Except PyErr (List Record) :=
  mapE (fun p => individualRow fields p.1 p.2) (enumFrom 0 anchors)

/-- `RaceStartlist.startlist` (source lines 48–122).  Validate the
requested fields, locate `.startlist_v3` (absent: `AttributeError` from
`None.css_first`), detect the layout by probing for `li.team`; in
individual layout re-root at `.page-content > div` (absent:
`AttributeError` from `None.css`) and build one row per unclassed anchor;
in team layout process each `li.team` in document order and concatenate
the per-team tables. -/
def startlist (doc : Node) (args : List String) : Except PyErr (List Record) :=
  match parse_table_fields_args args availableFields with
  | .error e => .error e
  | .ok fields =>
    match cssFirst isStartlistV3 doc with
    | Option.none => .error .attributeError
    | some sh =>
      match cssFirst isTeamLi sh with
      | Option.none =>
        match (selectChild isPageContent isDiv doc).head? with
        | Option.none => .error .attributeError
        | some container =>
          individualTable fields (selectAll unclassedAnchor container)
      | some _ =>
        match mapE (perTeam fields) (selectAll isTeamLi sh) with
        | .error e => .error e
        | .ok ts => .ok ts.flatten

/-- Characters up to (excluding) the first `?`: the query string does not
take part in the canonical identity. -/
def takeUntilQuery : List Char → List Char
  | [] => []
  | c :: cs => if c = '?' then [] else c :: takeUntilQuery cs

/-- The character tail after the first `://` marker, when present. -/
def afterSchemeMark : List Char → Option (List Char)
  | [] => Option.none
  | ':' :: '/' :: '/' :: rest => some rest
  | _ :: cs => afterSchemeMark cs

/-- Drop the host part: everything up to and including the first `/`. -/
def dropThroughSlash : List Char → List Char
  | [] => []
  | c :: cs => if c = '/' then cs else dropThroughSlash cs

/-- Modelled from the spec: the URL decomposition of
`Scraper._decomposed_url` (not in `src/`): scheme and host stripped, the
path split into ordered non-empty components, query string ignored. -/
def decomposeUrl (url : String) : List String :=
  let cs := takeUntilQuery url.toList
  let path :=
    match afterSchemeMark cs with
    | some rest => dropThroughSlash rest
    | Option.none => cs
  ((splitChars '/' path).map (fun g => String.mk g)).filter (fun s => s ≠ "")

/-- A 4-digit year path component. -/
def is4DigitYear (s : String) : Bool :=
  s.toList.length == 4 && s.toList.all Char.isDigit

/-- The path components after the first `race` marker component. -/
def afterRace : List String → Option (List String)
  | [] => Option.none
  | c :: cs => if c = "race" then some cs else afterRace cs

/-- The first 4-digit year among the components following the race id. -/
def findYear : List String → Option String
  | [] => Option.none
  | c :: cs => if is4DigitYear c then some c else findYear cs

/-- Modelled from the spec: `utils.normalize_race_url` composed with the
URL decomposition (`RaceStartlist.normalized_relative_url`, source lines
38–46; the helpers are not in `src/`).  Locate the race id (first
component after the `race` marker), scan forward for a 4-digit year, and
reassemble; a URL without the required shape is `InvalidURL`. -/
def canonicalize (url : String) : Except PyErr String :=
  match afterRace (decomposeUrl url) with
  | Option.none => .error (.valueError "invalid URL")
  | some [] => .error (.valueError "invalid URL")
  | some (rid :: rest) =>
    match findYear rest with
    | Option.none => .ok ("race/" ++ rid ++ "/startlist")
    | some y => .ok ("race/" ++ rid ++ "/" ++ y ++ "/startlist")

/-! ### Concrete documents used to exercise the definitions -/

/-- Anchor of the first rider of team Alpha. -/
def exRiderA1 : Node := .mk "a" [("href", some "rider/john-doe")] "John Doe" .nil

/-- Anchor of the second rider of team Alpha. -/
def exRiderA2 : Node := .mk "a" [("href", some "rider/jane-roe")] "Jane Roe" .nil

/-- Anchor of the rider of team Beta (same rider as `exRiderA1`,
listed twice on the page). -/
def exRiderA3 : Node := .mk "a" [("href", some "rider/john-doe")] "John Doe" .nil

/-- First list item of team Alpha (number `1`). -/
def exLi1 : Node := .mk "li" [] "1 " (.cons exRiderA1 .nil)

/-- Second list item of team Alpha (number `2`). -/
def exLi2 : Node := .mk "li" [] "2 " (.cons exRiderA2 .nil)

/-- List item of team Beta (number `11`). -/
def exLi3 : Node := .mk "li" [] "11 " (.cons exRiderA3 .nil)

/-- Rider list of team Alpha. -/
def exUl1 : Node := .mk "ul" [] "" (.cons exLi1 (.cons exLi2 .nil))

/-- Rider list of team Beta. -/
def exUl2 : Node := .mk "ul" [] "" (.cons exLi3 .nil)

/-- Primary anchor of team Alpha. -/
def exTeamA1 : Node := .mk "a" [("href", some "team/alpha")] "Alpha" .nil

/-- Primary anchor of team Beta. -/
def exTeamA2 : Node := .mk "a" [("href", some "team/beta")] "Beta" .nil

/-- Team node of team Alpha. -/
def exTeam1 : Node :=
  .mk "li" [("class", some "team")] "" (.cons exTeamA1 (.cons exUl1 .nil))

/-- Team node of team Beta. -/
def exTeam2 : Node :=
  .mk "li" [("class", some "team")] "" (.cons exTeamA2 (.cons exUl2 .nil))

/-- A team-grouped startlist section with two teams. -/
def exStartlistTeam : Node :=
  .mk "div" [("class", some "startlist_v3")] "" (.cons exTeam1 (.cons exTeam2 .nil))

/-- A team-grouped document with two teams of two and one riders. -/
def exDocTeam : Node := .mk "html" [] "" (.cons exStartlistTeam .nil)

/-- First unclassed rider anchor of the individual-layout document. -/
def exIndA1 : Node := .mk "a" [("href", some "rider/r1")] "R1" .nil

/-- A classed (navigation) anchor, excluded from the individual scan. -/
def exIndNav : Node := .mk "a" [("class", some "nav"), ("href", some "x")] "Nav" .nil

/-- Second unclassed rider anchor of the individual-layout document. -/
def exIndA2 : Node := .mk "a" [("href", some "rider/r2")] "R2" .nil

/-- The `div` child of the page-content block. -/
def exInnerDiv : Node :=
  .mk "div" [] "" (.cons exIndA1 (.cons exIndNav (.cons exIndA2 .nil)))

/-- The page-content block of the individual-layout document. -/
def exPageContent : Node :=
  .mk "div" [("class", some "page-content")] "" (.cons exInnerDiv .nil)

/-- An individual-layout startlist section (no `li.team`). -/
def exStartlistInd : Node := .mk "div" [("class", some "startlist_v3")] "" .nil

/-- An individual-layout document with two rider anchors and one
navigation anchor. -/
def exDocInd : Node :=
  .mk "html" [] "" (.cons exStartlistInd (.cons exPageContent .nil))

/-- A document with no `.startlist_v3` element at all. -/
def exDocNoStartlist : Node := .mk "html" [] "" .nil

/-- A document whose `.startlist_v3` has no `li.team` and which has no
`.page-content > div` either. -/
def exDocNoContainer : Node := .mk "html" [] "" (.cons exStartlistInd .nil)

/-- Expected first record of the team-grouped example. -/
def exTeamRec1 : Record :=
  [("rider_name", .vstr "John Doe"), ("rider_url", .vstr "rider/john-doe"),
   ("nationality", .vnone), ("rider_number", .vint 1),
   ("team_name", .vstr "Alpha"), ("team_url", .vstr "team/alpha")]

/-- Expected second record of the team-grouped example. -/
def exTeamRec2 : Record :=
  [("rider_name", .vstr "Jane Roe"), ("rider_url", .vstr "rider/jane-roe"),
   ("nationality", .vnone), ("rider_number", .vint 2),
   ("team_name", .vstr "Alpha"), ("team_url", .vstr "team/alpha")]

/-- Expected third record of the team-grouped example (the same rider as
the first, listed again under the second team). -/
def exTeamRec3 : Record :=
  [("rider_name", .vstr "John Doe"), ("rider_url", .vstr "rider/john-doe"),
   ("nationality", .vnone), ("rider_number", .vint 11),
   ("team_name", .vstr "Beta"), ("team_url", .vstr "team/beta")]

/-- Expected rows of the first team of the team-grouped example. -/
def exTeamRows1 : List Record := [exTeamRec1, exTeamRec2]

/-- Expected full table of the team-grouped example. -/
def exTeamTable : List Record := [exTeamRec1, exTeamRec2, exTeamRec3]

/-- Expected first record of the individual-layout example. -/
def exIndRec1 : Record :=
  [("rider_name", .vstr "R1"), ("rider_url", .vstr "rider/r1"),
   ("team_name", .vnone), ("team_url", .vnone), ("nationality", .vnone),
   ("rider_number", .vint 1)]

/-- Expected second record of the individual-layout example. -/
def exIndRec2 : Record :=
  [("rider_name", .vstr "R2"), ("rider_url", .vstr "rider/r2"),
   ("team_name", .vnone), ("team_url", .vnone), ("nationality", .vnone),
   ("rider_number", .vint 2)]

/-- Expected table of the individual-layout example. -/
def exIndTable : List Record := [exIndRec1, exIndRec2]

/-! ### Basic lemmas about the embedding's building blocks -/

theorem mapE_ok_length {α β : Type} {f : α → Except PyErr β} :
    ∀ {l : List α} {bs : List β}, mapE f l = Except.ok bs → bs.length = l.length := by
  intro l
  induction l with
  | nil =>
    intro bs h
    simp only [mapE] at h
    cases h
    rfl
  | cons a as ih =>
    intro bs h
    simp only [mapE] at h
    split at h
    · cases h
    · split at h
      · cases h
      · cases h
        simp [ih (by assumption)]

theorem mapE_ok_get {α β : Type} {f : α → Except PyErr β} :
    ∀ {l : List α} {bs : List β}, mapE f l = Except.ok bs →
      ∀ i (hi : i < l.length) (hb : i < bs.length),
        f (l.get ⟨i, hi⟩) = Except.ok (bs.get ⟨i, hb⟩) := by
  intro l
  induction l with
  | nil =>
    intro bs h i hi hb
    exact absurd hi (by simp)
  | cons a as ih =>
    intro bs h i hi hb
    simp only [mapE] at h
    split at h
    · cases h
    · split at h
      · cases h
      · cases h
        cases i with
        | zero => simpa using (by assumption : f a = Except.ok _)
        | succ j => exact ih (by assumption) j (by simpa using hi) (by simpa using hb)

theorem mapE_ok_mem {α β : Type} {f : α → Except PyErr β} :
    ∀ {l : List α} {bs : List β}, mapE f l = Except.ok bs →
      ∀ {b : β}, b ∈ bs → ∃ a ∈ l, f a = Except.ok b := by
  intro l
  induction l with
  | nil =>
    intro bs h b hb
    simp only [mapE] at h
    cases h
    simp at hb
  | cons a as ih =>
    intro bs h b hb
    simp only [mapE] at h
    split at h
    · cases h
    · split at h
      · cases h
      · cases h
        rcases List.mem_cons.mp hb with hb | hb
        · subst hb
          exact ⟨a, List.mem_cons_self a as, by assumption⟩
        · obtain ⟨x, hx, hfx⟩ := ih (by assumption) hb
          exact ⟨x, List.mem_cons_of_mem a hx, hfx⟩

theorem enumFrom_length {α : Type} : ∀ (s : Nat) (l : List α),
    (enumFrom s l).length = l.length := by
  intro s l
  induction l generalizing s with
  | nil => rfl
  | cons a as ih => simp [enumFrom, ih]

theorem enumFrom_get {α : Type} : ∀ (s : Nat) (l : List α) (i : Nat)
    (h : i < l.length) (h' : i < (enumFrom s l).length),
    (enumFrom s l).get ⟨i, h'⟩ = (s + i, l.get ⟨i, h⟩) := by
  intro s l
  induction l generalizing s with
  | nil => intro i h; exact absurd h (by simp)
  | cons a as ih =>
    intro i h h'
    cases i with
    | zero => simp [enumFrom]
    | succ j =>
      have := ih (s + 1) j (by simpa using h) (by simpa [enumFrom_length] using h)
      simp only [enumFrom, List.get_cons_succ]
      rw [this]
      congr 1
      omega

theorem dictGet_dictSet_self (r : Record) (k : String) (v : Value) :
    dictGet (dictSet r k v) k = some v := by
  induction r with
  | nil => simp [dictSet, dictGet]
  | cons p ps ih =>
    by_cases h : p.1 = k
    · simp [dictSet, dictGet, h]
    · simp [dictSet, dictGet, h, ih]

theorem dictGet_dictSet_ne (r : Record) {k k' : String} (v : Value) (h : k' ≠ k) :
    dictGet (dictSet r k v) k' = dictGet r k' := by
  induction r with
  | nil => simp [dictSet, dictGet, Ne.symm h]
  | cons p ps ih =>
    by_cases hp : p.1 = k
    · subst hp
      simp [dictSet, dictGet, Ne.symm h]
    · by_cases hp' : p.1 = k'
      · simp [dictSet, dictGet, hp, hp', h]
      · simp [dictSet, dictGet, hp, hp', ih]

theorem keys_dictSet (r : Record) (k k' : String) (v : Value) :
    k' ∈ keys (dictSet r k v) ↔ k' ∈ keys r ∨ k' = k := by
  induction r with
  | nil => simp [dictSet, keys]
  | cons p ps ih =>
    by_cases h : p.1 = k
    · subst h
      simp [dictSet, keys]
      tauto
    · simp only [dictSet, if_neg h, keys, List.map_cons, List.mem_cons] at *
      rw [ih]
      tauto

theorem keys_mapPair (fl : List String) (g : String → Value) :
    keys (fl.map (fun f => (f, g f))) = fl := by
  simp [keys, List.map_map, Function.comp_def]

theorem dictGet_constMap (fields : List String) (k : String) (v : Value) :
    dictGet (fields.map (fun f => (f, v))) k =
      if k ∈ fields then some v else Option.none := by
  induction fields with
  | nil => simp [dictGet]
  | cons f fs ih =>
    by_cases h : f = k
    · simp [dictGet, h]
    · simp [dictGet, h, ih, Ne.symm h]

theorem zip_replicate_self {α β : Type} (t : List α) (u : β) :
    t.zip (List.replicate t.length u) = t.map (fun a => (a, u)) := by
  induction t with
  | nil => rfl
  | cons a as ih => simp [List.replicate, ih]

theorem extend_table_nil (f : String) (v : List Value) :
    extend_table [] f v = Except.ok (v.map (fun u => [(f, u)])) := rfl

theorem extend_table_replicate (t : List Record) (f : String) (u : Value) :
    extend_table t f (List.replicate t.length u) =
      Except.ok (t.map (fun r => dictSet r f u)) := by
  by_cases ht : t = []
  · subst ht; rfl
  · have h1 : t.isEmpty = false := by simpa using ht
    simp [extend_table, h1, zip_replicate_self, List.map_map, Function.comp_def]

theorem extend_table_mismatch {t : List Record} {f : String} {v : List Value}
    (h1 : t ≠ []) (h2 : t.length ≠ v.length) :
    extend_table t f v = Except.error (.malformedPage "column length mismatch") := by
  cases t with
  | nil => exact absurd rfl h1
  | cons r rs =>
    have h2' : rs.length + 1 ≠ v.length := by simpa using h2
    simp [extend_table, h2']

theorem extend_table_ok_shape {t : List Record} {f : String} {v : List Value}
    {t' : List Record} (h : extend_table t f v = Except.ok t') :
    (t = [] ∧ t' = v.map (fun u => [(f, u)])) ∨
      (t ≠ [] ∧ t.length = v.length ∧
        t' = (t.zip v).map (fun p => dictSet p.1 f p.2)) := by
  cases t with
  | nil =>
    left
    refine ⟨rfl, ?_⟩
    rw [extend_table_nil] at h
    cases h
    rfl
  | cons r rs =>
    right
    refine ⟨by simp, ?_⟩
    by_cases hl : (r :: rs).length = v.length
    · simp only [extend_table, hl] at h
      simp at h
      exact ⟨hl, h.symm⟩
    · rw [extend_table_mismatch (by simp) hl] at h
      cases h

theorem tpParse_nil_fields (ul : Node) : tpParse ul [] = [] := rfl

theorem tpParse_eq (ul : Node) {fl : List String} (h : fl ≠ []) :
    tpParse ul fl =
      (selectAll isLi ul).map (fun li => fl.map (fun f => (f, casualValue f li))) := by
  simp [tpParse, h]

theorem tpParse_length (ul : Node) {fl : List String} (h : fl ≠ []) :
    (tpParse ul fl).length = (selectAll isLi ul).length := by
  simp [tpParse_eq ul h]

theorem tpParse_mem_keys {ul : Node} {fl : List String} {r : Record}
    (h : r ∈ tpParse ul fl) : keys r = fl := by
  by_cases hfl : fl = []
  · subst hfl
    simp [tpParse_nil_fields] at h
  · rw [tpParse_eq ul hfl] at h
    obtain ⟨li, _, rfl⟩ := List.mem_map.mp h
    exact keys_mapPair fl (fun f => casualValue f li)

theorem tpParse_eq_nil_iff (ul : Node) (fl : List String) :
    tpParse ul fl = [] ↔ fl = [] ∨ selectAll isLi ul = [] := by
  by_cases hfl : fl = []
  · simp [hfl, tpParse_nil_fields]
  · simp [tpParse_eq ul hfl, hfl]

/-! ### Destructor lemmas for the extraction steps -/

theorem numberStep_not {fields : List String} (ul : Node) (t : List Record)
    (h : "rider_number" ∉ fields) : numberStep fields ul t = Except.ok t := by
  simp [numberStep, h]

theorem numberStep_ok_shape {fields : List String} {ul : Node} {t t' : List Record}
    (hmem : "rider_number" ∈ fields) (h : numberStep fields ul t = Except.ok t') :
    ∃ ns : List Int,
      mapE (fun li => pyInt (leadingToken li)) (selectAll isLi ul) = Except.ok ns ∧
      extend_table t "rider_number" (ns.map Value.vint) = Except.ok t' := by
  simp only [numberStep, if_pos hmem, teamNumbers] at h
  split at h
  · cases h
  · rename_i ns hns
    split at hns
    · cases hns
    · rename_i ns0 hns0
      cases hns
      exact ⟨ns0, hns0, h⟩

theorem teamNameStep_ok {fields : List String} {team : Node} {t t' : List Record}
    (h : teamNameStep fields team t = Except.ok t') :
    ("team_name" ∉ fields ∧ t' = t) ∨
      ("team_name" ∈ fields ∧ ∃ a, cssFirst isA team = some a ∧
        t' = t.map (fun r => dictSet r "team_name" (Value.vstr (textDeep a)))) := by
  by_cases hmem : "team_name" ∈ fields
  · right
    refine ⟨hmem, ?_⟩
    simp only [teamNameStep, if_pos hmem] at h
    split at h
    · cases h
    · rename_i a ha
      rw [extend_table_replicate] at h
      cases h
      exact ⟨a, ha, rfl⟩
  · left
    simp only [teamNameStep, if_neg hmem] at h
    cases h
    exact ⟨hmem, rfl⟩

theorem teamUrlStep_ok {fields : List String} {team : Node} {t t' : List Record}
    (h : teamUrlStep fields team t = Except.ok t') :
    ("team_url" ∉ fields ∧ t' = t) ∨
      ("team_url" ∈ fields ∧ ∃ a v, cssFirst isA team = some a ∧
        getAttr a "href" = some v ∧
        t' = t.map (fun r => dictSet r "team_url" (optToValue v))) := by
  by_cases hmem : "team_url" ∈ fields
  · right
    refine ⟨hmem, ?_⟩
    simp only [teamUrlStep, if_pos hmem] at h
    split at h
    · cases h
    · rename_i a ha
      split at h
      · cases h
      · rename_i v hv
        rw [extend_table_replicate] at h
        cases h
        exact ⟨a, v, ha, hv, rfl⟩
  · left
    simp only [teamUrlStep, if_neg hmem] at h
    cases h
    exact ⟨hmem, rfl⟩

theorem perTeam_ok_shape {fields : List String} {team : Node} {rows : List Record}
    (h : perTeam fields team = Except.ok rows) :
    ∃ ul, cssFirst isUl team = some ul ∧
      ∃ t1 t2,
        numberStep fields ul
          (tpParse ul (casual_rider_fields.filter (fun f => decide (f ∈ fields)))) =
            Except.ok t1 ∧
        teamNameStep fields team t1 = Except.ok t2 ∧
        teamUrlStep fields team t2 = Except.ok rows := by
  simp only [perTeam] at h
  split at h
  · cases h
  · rename_i ul hul
    split at h
    · cases h
    · rename_i t1 ht1
      split at h
      · cases h
      · rename_i t2 ht2
        exact ⟨ul, hul, t1, t2, ht1, ht2, h⟩

/-! ### Field-validation and branch-destructor lemmas -/

theorem parse_ok_subset {args available fields : List String}
    (h : parse_table_fields_args args available = Except.ok fields) :
    ∀ f ∈ fields, f ∈ available := by
  simp only [parse_table_fields_args] at h
  split at h
  · cases h
  · split at h
    · cases h
      exact fun f hf => hf
    · cases h
      intro f hf
      exact (List.mem_filter.mp hf).1

theorem parse_nil (available : List String) :
    parse_table_fields_args [] available = Except.ok available := rfl

theorem parse_bad {args available : List String} {a : String}
    (hmem : a ∈ args) (hnot : a ∉ available) :
    parse_table_fields_args args available =
      Except.error (.valueError
        (", ".intercalate (args.filter (fun x => decide (x ∉ available))))) := by
  have ha : a ∈ args.filter (fun x => decide (x ∉ available)) :=
    List.mem_filter.mpr ⟨hmem, by simpa using hnot⟩
  have hbad : args.filter (fun x => decide (x ∉ available)) ≠ [] :=
    List.ne_nil_of_mem ha
  unfold parse_table_fields_args
  rw [if_pos hbad]

theorem dictGet_ite_ne {r : Record} {c : Prop} [Decidable c] {k0 k : String}
    {v : Value} (h : k ≠ k0) :
    dictGet (if c then dictSet r k0 v else r) k = dictGet r k := by
  by_cases hc : c
  · simp [hc, dictGet_dictSet_ne _ _ h]
  · simp [hc]

theorem keys_iff_set {r : Record} {fields : List String} {k0 : String} {v : Value}
    (hk0 : k0 ∈ fields) (h : ∀ k, k ∈ keys r ↔ k ∈ fields) :
    ∀ k, k ∈ keys (dictSet r k0 v) ↔ k ∈ fields := by
  intro k
  rw [keys_dictSet, h]
  constructor
  · rintro (hk | rfl)
    · exact hk
    · exact hk0
  · exact Or.inl

theorem keys_iff_ite {r : Record} {fields : List String} (k0 : String) (v : Value)
    (h : ∀ k, k ∈ keys r ↔ k ∈ fields) :
    ∀ k, k ∈ keys (if k0 ∈ fields then dictSet r k0 v else r) ↔ k ∈ fields := by
  by_cases hk : k0 ∈ fields
  · simp only [if_pos hk]
    exact keys_iff_set hk h
  · simp only [if_neg hk]
    exact h

theorem startlist_team_dest {doc : Node} {args fields : List String}
    {sh tm : Node} {t : List Record}
    (hparse : parse_table_fields_args args availableFields = Except.ok fields)
    (hsh : cssFirst isStartlistV3 doc = some sh)
    (htm : cssFirst isTeamLi sh = some tm)
    (hok : startlist doc args = Except.ok t) :
    ∃ ts, mapE (perTeam fields) (selectAll isTeamLi sh) = Except.ok ts ∧
      t = ts.flatten := by
  simp only [startlist, hparse, hsh, htm] at hok
  split at hok
  · cases hok
  · cases hok
    exact ⟨_, by assumption, rfl⟩

theorem startlist_ind_dest {doc : Node} {args fields : List String}
    {sh container : Node} {t : List Record}
    (hparse : parse_table_fields_args args availableFields = Except.ok fields)
    (hsh : cssFirst isStartlistV3 doc = some sh)
    (hno : cssFirst isTeamLi sh = Option.none)
    (hcont : (selectChild isPageContent isDiv doc).head? = some container)
    (hok : startlist doc args = Except.ok t) :
    individualTable fields (selectAll unclassedAnchor container) = Except.ok t := by
  simp only [startlist, hparse, hsh, hno, hcont] at hok
  exact hok

/-! ### Lemmas about individual-layout rows -/

theorem individualRow_ok_props {fields : List String} {i : Nat} {ra : Node}
    {r : Record} (h : individualRow fields i ra = Except.ok r) :
    ("rider_number" ∈ fields →
      dictGet r "rider_number" = some (Value.vint (Int.ofNat i + 1))) ∧
    ("rider_name" ∈ fields →
      dictGet r "rider_name" = some (Value.vstr (textDeep ra))) ∧
    ("rider_url" ∈ fields → ∃ v, getAttr ra "href" = some v ∧
      dictGet r "rider_url" = some (optToValue v)) ∧
    ("team_name" ∈ fields → dictGet r "team_name" = some Value.vnone) ∧
    ("team_url" ∈ fields → dictGet r "team_url" = some Value.vnone) ∧
    ("nationality" ∈ fields → dictGet r "nationality" = some Value.vnone) := by
  simp only [individualRow] at h
  split at h
  · cases h
  · rename_i r1 heq
    cases h
    refine ⟨?_, ?_, ?_, ?_, ?_, ?_⟩
    · intro hmem
      rw [dictGet_ite_ne (by decide), dictGet_ite_ne (by decide),
        dictGet_ite_ne (by decide), if_pos hmem, dictGet_dictSet_self]
    · intro hmem
      rw [dictGet_ite_ne (by decide), dictGet_ite_ne (by decide),
        dictGet_ite_ne (by decide), dictGet_ite_ne (by decide),
        if_pos hmem, dictGet_dictSet_self]
    · intro hmem
      rw [if_pos hmem] at heq
      split at heq
      · cases heq
      · rename_i v hv
        cases heq
        refine ⟨v, hv, ?_⟩
        rw [dictGet_ite_ne (by decide), dictGet_ite_ne (by decide),
          dictGet_ite_ne (by decide), dictGet_ite_ne (by decide),
          dictGet_ite_ne (by decide), dictGet_dictSet_self]
    · intro hmem
      rw [dictGet_ite_ne (by decide), dictGet_ite_ne (by decide),
        if_pos hmem, dictGet_dictSet_self]
    · intro hmem
      rw [dictGet_ite_ne (by decide), if_pos hmem, dictGet_dictSet_self]
    · intro hmem
      rw [if_pos hmem, dictGet_dictSet_self]

theorem individualRow_ok_keys {fields : List String} {i : Nat} {ra : Node}
    {r : Record} (h : individualRow fields i ra = Except.ok r) :
    ∀ k, k ∈ keys r ↔ k ∈ fields := by
  simp only [individualRow] at h
  split at h
  · cases h
  · rename_i r1 heq
    cases h
    have hbase : ∀ k, k ∈ keys (fields.map (fun f => (f, Value.vnone))) ↔ k ∈ fields := by
      intro k
      rw [keys_mapPair fields (fun _ => Value.vnone)]
    have h1 : ∀ k, k ∈ keys r1 ↔ k ∈ fields := by
      by_cases hu : "rider_url" ∈ fields
      · rw [if_pos hu] at heq
        split at heq
        · cases heq
        · cases heq
          exact keys_iff_set hu hbase
      · rw [if_neg hu] at heq
        cases heq
        exact hbase
    exact keys_iff_ite "nationality" _
      (keys_iff_ite "team_url" _
        (keys_iff_ite "team_name" _
          (keys_iff_ite "rider_number" _
            (keys_iff_ite "rider_name" _ h1))))

/-! ### Lemmas about team-grouped rows -/

theorem numberStep_not_ok {fields : List String} {ul : Node} {t t' : List Record}
    (hrn : "rider_number" ∉ fields) (h : numberStep fields ul t = Except.ok t') :
    t' = t := by
  rw [numberStep_not ul t hrn] at h
  cases h
  rfl

theorem perTeam_ok_keys {fields : List String} {team : Node} {rows : List Record}
    (hsub : ∀ f ∈ fields, f ∈ availableFields)
    (h : perTeam fields team = Except.ok rows) :
    ∀ r ∈ rows, ∀ k, k ∈ keys r ↔ k ∈ fields := by
  obtain ⟨ul, hul, t1, t2, ht1, ht2, ht3⟩ := perTeam_ok_shape h
  set fl := casual_rider_fields.filter (fun f => decide (f ∈ fields)) with hfl
  have hflmem : ∀ k, k ∈ fl ↔ (k ∈ casual_rider_fields ∧ k ∈ fields) := by
    intro k
    simp [hfl, List.mem_filter]
  have inv1 : ∀ r ∈ t1, ∀ k, k ∈ keys r ↔
      (k ∈ fl ∨ (k = "rider_number" ∧ "rider_number" ∈ fields)) := by
    by_cases hrn : "rider_number" ∈ fields
    · obtain ⟨ns, hns, hext⟩ := numberStep_ok_shape hrn ht1
      rcases extend_table_ok_shape hext with ⟨h0, h1⟩ | ⟨h0, hlen, h1⟩
      · subst h1
        intro r hr k
        obtain ⟨u, hu, rfl⟩ := List.mem_map.mp hr
        have hflnil : fl = [] := by
          rcases (tpParse_eq_nil_iff ul fl).mp h0 with hni | hni
          · exact hni
          · exfalso
            have hlen' := mapE_ok_length hns
            rw [hni] at hlen'
            have : ns = [] := List.length_eq_zero.mp (by simpa using hlen')
            subst this
            simp at hu
        simp [keys, hflnil, hrn]
      · subst h1
        intro r hr k
        obtain ⟨p, hp, rfl⟩ := List.mem_map.mp hr
        have hp1 : p.1 ∈ tpParse ul fl := (List.of_mem_zip hp).1
        rw [keys_dictSet, tpParse_mem_keys hp1]
        simp [hrn]
    · have h10 := numberStep_not_ok hrn ht1
      subst h10
      intro r hr k
      rw [tpParse_mem_keys hr]
      simp [hrn]
  have inv2 : ∀ r ∈ t2, ∀ k, k ∈ keys r ↔
      (k ∈ fl ∨ (k = "rider_number" ∧ "rider_number" ∈ fields) ∨
        (k = "team_name" ∧ "team_name" ∈ fields)) := by
    rcases teamNameStep_ok ht2 with ⟨hmem, rfl⟩ | ⟨hmem, a, ha, rfl⟩
    · intro r hr k
      rw [inv1 r hr]
      simp [hmem]
    · intro r hr k
      obtain ⟨r1, hr1, rfl⟩ := List.mem_map.mp hr
      rw [keys_dictSet, inv1 r1 hr1]
      simp [hmem]
      tauto
  have inv3 : ∀ r ∈ rows, ∀ k, k ∈ keys r ↔
      (k ∈ fl ∨ (k = "rider_number" ∧ "rider_number" ∈ fields) ∨
        (k = "team_name" ∧ "team_name" ∈ fields) ∨
        (k = "team_url" ∧ "team_url" ∈ fields)) := by
    rcases teamUrlStep_ok ht3 with ⟨hmem, rfl⟩ | ⟨hmem, a, v, ha, hv, rfl⟩
    · intro r hr k
      rw [inv2 r hr]
      simp [hmem]
    · intro r hr k
      obtain ⟨r2, hr2, rfl⟩ := List.mem_map.mp hr
      rw [keys_dictSet, inv2 r2 hr2]
      simp [hmem]
      tauto
  intro r hr k
  rw [inv3 r hr]
  constructor
  · rintro (hk | ⟨rfl, hm⟩ | ⟨rfl, hm⟩ | ⟨rfl, hm⟩)
    · exact ((hflmem k).mp hk).2
    · exact hm
    · exact hm
    · exact hm
  · intro hk
    have hav := hsub k hk
    simp only [availableFields, List.mem_cons, List.mem_singleton] at hav
    rcases hav with rfl | rfl | rfl | rfl | rfl | rfl | hfalse
    · exact Or.inl ((hflmem _).mpr ⟨by simp [casual_rider_fields], hk⟩)
    · exact Or.inl ((hflmem _).mpr ⟨by simp [casual_rider_fields], hk⟩)
    · exact Or.inr (Or.inr (Or.inl ⟨rfl, hk⟩))
    · exact Or.inr (Or.inr (Or.inr ⟨rfl, hk⟩))
    · exact Or.inl ((hflmem _).mpr ⟨by simp [casual_rider_fields], hk⟩)
    · exact Or.inr (Or.inl ⟨rfl, hk⟩)
    · cases hfalse

theorem teamNameStep_ok_length {fields : List String} {team : Node}
    {t t' : List Record} (h : teamNameStep fields team t = Except.ok t') :
    t'.length = t.length := by
  rcases teamNameStep_ok h with ⟨_, rfl⟩ | ⟨_, a, ha, rfl⟩
  · rfl
  · simp

theorem teamUrlStep_ok_length {fields : List String} {team : Node}
    {t t' : List Record} (h : teamUrlStep fields team t = Except.ok t') :
    t'.length = t.length := by
  rcases teamUrlStep_ok h with ⟨_, rfl⟩ | ⟨_, a, v, ha, hv, rfl⟩
  · rfl
  · simp

theorem perTeam_ok_length {fields : List String} {team : Node} {rows : List Record}
    (hone : "rider_number" ∈ fields ∨ "rider_name" ∈ fields ∨
      "rider_url" ∈ fields ∨ "nationality" ∈ fields)
    (h : perTeam fields team = Except.ok rows) :
    ∃ ul, cssFirst isUl team = some ul ∧
      rows.length = (selectAll isLi ul).length := by
  obtain ⟨ul, hul, t1, t2, ht1, ht2, ht3⟩ := perTeam_ok_shape h
  refine ⟨ul, hul, ?_⟩
  rw [teamUrlStep_ok_length ht3, teamNameStep_ok_length ht2]
  set fl := casual_rider_fields.filter (fun f => decide (f ∈ fields)) with hfl
  by_cases hrn : "rider_number" ∈ fields
  · obtain ⟨ns, hns, hext⟩ := numberStep_ok_shape hrn ht1
    have hnslen : ns.length = (selectAll isLi ul).length := mapE_ok_length hns
    rcases extend_table_ok_shape hext with ⟨h0, h1⟩ | ⟨h0, hlen, h1⟩
    · subst h1
      simp [hnslen]
    · subst h1
      have hfl0 : fl ≠ [] := by
        intro hnil
        apply h0
        rw [hnil]
        exact tpParse_nil_fields ul
      have ht0len : (tpParse ul fl).length = (selectAll isLi ul).length :=
        tpParse_length ul hfl0
      simp [List.length_zip, hlen.symm, ht0len]
  · have h10 := numberStep_not_ok hrn ht1
    subst h10
    have hcas : ∃ f, f ∈ casual_rider_fields ∧ f ∈ fields := by
      rcases hone with hm | hm | hm | hm
      · exact absurd hm hrn
      · exact ⟨"rider_name", by simp [casual_rider_fields], hm⟩
      · exact ⟨"rider_url", by simp [casual_rider_fields], hm⟩
      · exact ⟨"nationality", by simp [casual_rider_fields], hm⟩
    obtain ⟨f, hf1, hf2⟩ := hcas
    have hfl0 : fl ≠ [] := by
      refine List.ne_nil_of_mem (a := f) ?_
      rw [hfl]
      exact List.mem_filter.mpr ⟨hf1, by simpa using hf2⟩
    exact tpParse_length ul hfl0

theorem perTeam_ok_broadcast {fields : List String} {team : Node}
    {rows : List Record} (h : perTeam fields team = Except.ok rows) :
    ("team_name" ∈ fields → ∃ a, cssFirst isA team = some a ∧
      ∀ r ∈ rows, dictGet r "team_name" = some (Value.vstr (textDeep a))) ∧
    ("team_url" ∈ fields → ∃ a v, cssFirst isA team = some a ∧
      getAttr a "href" = some v ∧
      ∀ r ∈ rows, dictGet r "team_url" = some (optToValue v)) := by
  obtain ⟨ul, hul, t1, t2, ht1, ht2, ht3⟩ := perTeam_ok_shape h
  constructor
  · intro hmem
    rcases teamNameStep_ok ht2 with ⟨hno, rfl⟩ | ⟨_, a, ha, rfl⟩
    · exact absurd hmem hno
    · refine ⟨a, ha, ?_⟩
      intro r hr
      rcases teamUrlStep_ok ht3 with ⟨_, rfl⟩ | ⟨_, a', v', ha', hv', rfl⟩
      · obtain ⟨r1, hr1, rfl⟩ := List.mem_map.mp hr
        exact dictGet_dictSet_self r1 _ _
      · obtain ⟨r2, hr2, rfl⟩ := List.mem_map.mp hr
        rw [dictGet_dictSet_ne _ _ (by decide)]
        obtain ⟨r1, hr1, rfl⟩ := List.mem_map.mp hr2
        exact dictGet_dictSet_self r1 _ _
  · intro hmem
    rcases teamUrlStep_ok ht3 with ⟨hno, rfl⟩ | ⟨_, a, v, ha, hv, rfl⟩
    · exact absurd hmem hno
    · refine ⟨a, v, ha, hv, ?_⟩
      intro r hr
      obtain ⟨r2, hr2, rfl⟩ := List.mem_map.mp hr
      exact dictGet_dictSet_self r2 _ _

theorem perTeam_ok_numbers {fields : List String} {team : Node} {rows : List Record}
    (hrn : "rider_number" ∈ fields) (h : perTeam fields team = Except.ok rows) :
    ∃ ul, cssFirst isUl team = some ul ∧
      ∀ i (hi : i < rows.length) (hl : i < (selectAll isLi ul).length),
        ∃ k : Int,
          pyInt (leadingToken ((selectAll isLi ul).get ⟨i, hl⟩)) = Except.ok k ∧
          dictGet (rows.get ⟨i, hi⟩) "rider_number" = some (Value.vint k) := by
  obtain ⟨ul, hul, t1, t2, ht1, ht2, ht3⟩ := perTeam_ok_shape h
  obtain ⟨ns, hns, hext⟩ := numberStep_ok_shape hrn ht1
  have hnslen : ns.length = (selectAll isLi ul).length := mapE_ok_length hns
  refine ⟨ul, hul, ?_⟩
  intro i hi hl
  have hins : i < ns.length := by rw [hnslen]; exact hl
  refine ⟨ns.get ⟨i, hins⟩, mapE_ok_get hns i hl hins, ?_⟩
  have hi2 : i < t2.length := by
    rw [← teamUrlStep_ok_length ht3]
    exact hi
  have hi1 : i < t1.length := by
    rw [← teamNameStep_ok_length ht2]
    exact hi2
  have hP1 : dictGet (t1.get ⟨i, hi1⟩) "rider_number" =
      some (Value.vint (ns.get ⟨i, hins⟩)) := by
    rcases extend_table_ok_shape hext with ⟨h0, h1⟩ | ⟨h0, hlen, h1⟩
    · subst h1
      simp only [List.get_eq_getElem, List.getElem_map]
      simp [dictGet]
    · subst h1
      simp only [List.get_eq_getElem, List.getElem_map, List.getElem_zip]
      rw [dictGet_dictSet_self]
  have hP2 : dictGet (t2.get ⟨i, hi2⟩) "rider_number" =
      some (Value.vint (ns.get ⟨i, hins⟩)) := by
    rcases teamNameStep_ok ht2 with ⟨_, h2⟩ | ⟨_, a, ha, h2⟩
    · subst h2
      exact hP1
    · subst h2
      simp only [List.get_eq_getElem, List.getElem_map] at *
      rw [dictGet_dictSet_ne _ _ (by decide)]
      exact hP1
  rcases teamUrlStep_ok ht3 with ⟨_, h3⟩ | ⟨_, a, v, ha, hv, h3⟩
  · subst h3
    exact hP2
  · subst h3
    simp only [List.get_eq_getElem, List.getElem_map] at *
    rw [dictGet_dictSet_ne _ _ (by decide)]
    exact hP2

theorem findYear_is4 : ∀ {l : List String} {y : String},
    findYear l = some y → is4DigitYear y = true := by
  intro l
  induction l with
  | nil => intro y h; cases h
  | cons c cs ih =>
    intro y h
    simp only [findYear] at h
    split at h
    · cases h
      assumption
    · exact ih h

/-! ### The claims -/

/-- C1: for every team-grouped document, the sequence returned by
`startlist` is exactly the concatenation of the per-team rider sequences
in team document order, preserving intra-team order, with no sorting,
deduplication, or cross-team merging; a rider listed under two teams on
the source page yields two records. -/
theorem claim_team_concat {doc : Node} {args fields : List String}
    {sh tm : Node} {t : List Record}
    (hparse : parse_table_fields_args args availableFields = Except.ok fields)
    (hsh : cssFirst isStartlistV3 doc = some sh)
    (htm : cssFirst isTeamLi sh = some tm)
    (hok : startlist doc args = Except.ok t) :
    ∃ ts, mapE (perTeam fields) (selectAll isTeamLi sh) = Except.ok ts ∧
      t = ts.flatten :=
  startlist_team_dest hparse hsh htm hok

/-- Witness for C1: the two-team example document, where the same rider
appears under both teams and the output is the flattening of the per-team
tables. -/
theorem claim_team_concat_witness :
    ∃ ts, mapE (perTeam availableFields) (selectAll isTeamLi exStartlistTeam) =
      Except.ok ts ∧ exTeamTable = ts.flatten :=
  @claim_team_concat exDocTeam [] availableFields exStartlistTeam exTeam1
    exTeamTable rfl rfl rfl rfl

/-- C2: for every individual-layout document and every effective field
set, every returned record has `team_name`, `team_url` and `nationality`
equal to the absent value (`None`) whenever those fields were
requested. -/
theorem claim_individual_nulling {doc : Node} {args fields : List String}
    {sh container : Node} {t : List Record}
    (hparse : parse_table_fields_args args availableFields = Except.ok fields)
    (hsh : cssFirst isStartlistV3 doc = some sh)
    (hno : cssFirst isTeamLi sh = Option.none)
    (hcont : (selectChild isPageContent isDiv doc).head? = some container)
    (hok : startlist doc args = Except.ok t) :
    ∀ r ∈ t,
      ("team_name" ∈ fields → dictGet r "team_name" = some Value.vnone) ∧
      ("team_url" ∈ fields → dictGet r "team_url" = some Value.vnone) ∧
      ("nationality" ∈ fields → dictGet r "nationality" = some Value.vnone) := by
  have hind := startlist_ind_dest hparse hsh hno hcont hok
  intro r hr
  obtain ⟨p, _, hrow⟩ := mapE_ok_mem hind hr
  have hp := individualRow_ok_props hrow
  exact ⟨hp.2.2.2.1, hp.2.2.2.2.1, hp.2.2.2.2.2⟩

/-- Witness for C2: in the individual example, the first record carries
`None` for all three team-level fields even though all fields were
requested. -/
theorem claim_individual_nulling_witness :
    dictGet exIndRec1 "team_name" = some Value.vnone ∧
    dictGet exIndRec1 "team_url" = some Value.vnone ∧
    dictGet exIndRec1 "nationality" = some Value.vnone := by
  have h := @claim_individual_nulling exDocInd [] availableFields
    exStartlistInd exInnerDiv exIndTable rfl rfl rfl rfl rfl
    exIndRec1 (by simp [exIndTable])
  exact ⟨h.1 (by decide), h.2.1 (by decide), h.2.2 (by decide)⟩

/-- C3: for every individual-layout document, `startlist` yields exactly
one record per unclassed anchor of the alternate container (classed
anchors are excluded by the selector), and the record at position `i`
carries rider number `i + 1` (when requested), the anchor's `href` as
`rider_url` and the anchor's text as `rider_name`. -/
theorem claim_individual_records {doc : Node} {args fields : List String}
    {sh container : Node} {t : List Record}
    (hparse : parse_table_fields_args args availableFields = Except.ok fields)
    (hsh : cssFirst isStartlistV3 doc = some sh)
    (hno : cssFirst isTeamLi sh = Option.none)
    (hcont : (selectChild isPageContent isDiv doc).head? = some container)
    (hok : startlist doc args = Except.ok t) :
    t.length = (selectAll unclassedAnchor container).length ∧
    ∀ i (hi : i < t.length)
      (ha : i < (selectAll unclassedAnchor container).length),
      ("rider_number" ∈ fields →
        dictGet (t.get ⟨i, hi⟩) "rider_number" =
          some (Value.vint (Int.ofNat i + 1))) ∧
      ("rider_name" ∈ fields →
        dictGet (t.get ⟨i, hi⟩) "rider_name" =
          some (Value.vstr
            (textDeep ((selectAll unclassedAnchor container).get ⟨i, ha⟩)))) ∧
      ("rider_url" ∈ fields → ∃ v,
        getAttr ((selectAll unclassedAnchor container).get ⟨i, ha⟩) "href" =
          some v ∧
        dictGet (t.get ⟨i, hi⟩) "rider_url" = some (optToValue v)) := by
  have hind := startlist_ind_dest hparse hsh hno hcont hok
  have hlen : t.length = (selectAll unclassedAnchor container).length := by
    rw [mapE_ok_length hind, enumFrom_length]
  refine ⟨hlen, ?_⟩
  intro i hi ha
  have hie : i < (enumFrom 0 (selectAll unclassedAnchor container)).length := by
    rw [enumFrom_length]
    exact ha
  have hrow := mapE_ok_get hind i hie hi
  rw [enumFrom_get 0 _ i ha hie] at hrow
  simp only [Nat.zero_add] at hrow
  have hp := individualRow_ok_props hrow
  exact ⟨hp.1, hp.2.1, hp.2.2.1⟩

/-- Witness for C3: the individual example has two unclassed anchors (the
classed navigation anchor is skipped) and its first record is numbered 1
with the anchor's `href` and text. -/
theorem claim_individual_records_witness :
    exIndTable.length = (selectAll unclassedAnchor exInnerDiv).length ∧
    dictGet exIndRec1 "rider_number" = some (Value.vint 1) ∧
    dictGet exIndRec1 "rider_name" = some (Value.vstr "R1") ∧
    ∃ v, getAttr exIndA1 "href" = some v ∧
      dictGet exIndRec1 "rider_url" = some (optToValue v) := by
  have h := @claim_individual_records exDocInd [] availableFields
    exStartlistInd exInnerDiv exIndTable rfl rfl rfl rfl rfl
  have h0 := h.2 0 (by decide) (by decide)
  exact ⟨h.1, h0.1 (by decide), h0.2.1 (by decide), h0.2.2 (by decide)⟩

/-- C4 (counterexample): with the valid effective field set
`["team_name"]` the first example team has two rider list items but the
extraction produces zero records (no rider-level field and no rider
number ever create rows, and the team-attribute broadcast is sized by the
empty partial table), so the per-team row count does not equal the
rider-list item count. -/
theorem claim_team_row_count_counterexample :
    parse_table_fields_args ["team_name"] availableFields =
      Except.ok ["team_name"] ∧
    perTeam ["team_name"] exTeam1 = Except.ok [] ∧
    cssFirst isUl exTeam1 = some exUl1 ∧
    (selectAll isLi exUl1).length = 2 ∧
    startlist exDocTeam ["team_name"] = Except.ok [] :=
  ⟨rfl, rfl, rfl, rfl, rfl⟩

/-- C4 (amended): for every team-grouped team node and every effective
field set containing at least one of `rider_number`, `rider_name`,
`rider_url`, `nationality`, the number of records produced for the team
equals the number of items in its nested rider list. -/
theorem claim_team_row_count_amended {fields : List String} {team : Node}
    {rows : List Record}
    (hone : "rider_number" ∈ fields ∨ "rider_name" ∈ fields ∨
      "rider_url" ∈ fields ∨ "nationality" ∈ fields)
    (h : perTeam fields team = Except.ok rows) :
    ∃ ul, cssFirst isUl team = some ul ∧
      rows.length = (selectAll isLi ul).length :=
  perTeam_ok_length hone h

/-- Witness for C4 (amended): the first example team with all fields
requested produces exactly as many records as it has list items. -/
theorem claim_team_row_count_amended_witness :
    ∃ ul, cssFirst isUl exTeam1 = some ul ∧
      exTeamRows1.length = (selectAll isLi ul).length :=
  @claim_team_row_count_amended availableFields exTeam1 exTeamRows1
    (Or.inl (by decide)) rfl

/-- C5: in team-grouped layout with `rider_number` requested, rider
numbers are parsed as integers from each list item's leading
whitespace-delimited text token and attached positionally; and a
row-count/value-count mismatch in the column append is a fatal
`MalformedPage` error rather than a silently misaligned table. -/
theorem claim_rider_number_alignment :
    (∀ (fields : List String) (team : Node) (rows : List Record),
      "rider_number" ∈ fields → perTeam fields team = Except.ok rows →
      ∃ ul, cssFirst isUl team = some ul ∧
        ∀ i (hi : i < rows.length) (hl : i < (selectAll isLi ul).length),
          ∃ k : Int,
            pyInt (leadingToken ((selectAll isLi ul).get ⟨i, hl⟩)) =
              Except.ok k ∧
            dictGet (rows.get ⟨i, hi⟩) "rider_number" =
              some (Value.vint k)) ∧
    (∀ (t : List Record) (f : String) (v : List Value),
      t ≠ [] → t.length ≠ v.length →
      extend_table t f v =
        Except.error (PyErr.malformedPage "column length mismatch")) :=
  ⟨fun _ _ _ h1 h2 => perTeam_ok_numbers h1 h2,
   fun _ _ _ h1 h2 => extend_table_mismatch h1 h2⟩

/-- Witness for C5: in the example team the first record's rider number
is the parsed leading token of the first list item, and a concrete
one-row table with zero values is rejected. -/
theorem claim_rider_number_alignment_witness :
    (∃ k : Int, pyInt (leadingToken exLi1) = Except.ok k ∧
      dictGet exTeamRec1 "rider_number" = some (Value.vint k)) ∧
    extend_table [[("rider_name", Value.vstr "x")]] "rider_number" [] =
      Except.error (PyErr.malformedPage "column length mismatch") := by
  constructor
  · obtain ⟨ul, hul, hnum⟩ := claim_rider_number_alignment.1
      availableFields exTeam1 exTeamRows1 (by decide) rfl
    have hulEq : ul = exUl1 := by
      have h0 : cssFirst isUl exTeam1 = some exUl1 := rfl
      rw [h0] at hul
      exact (Option.some.inj hul).symm
    subst hulEq
    exact hnum 0 (by decide) (by decide)
  · exact claim_rider_number_alignment.2
      [[("rider_name", Value.vstr "x")]] "rider_number" []
      (by decide) (by decide)

/-- C6: for every team-grouped team and every effective field set with
`team_name` and/or `team_url` requested, all records originating from
that team carry pairwise equal `team_name` values and pairwise equal
`team_url` values, each read once from the team node's primary anchor and
broadcast to every member. -/
theorem claim_team_broadcast {fields : List String} {team : Node}
    {rows : List Record} (h : perTeam fields team = Except.ok rows) :
    ("team_name" ∈ fields → ∃ a, cssFirst isA team = some a ∧
      ∀ r ∈ rows, dictGet r "team_name" = some (Value.vstr (textDeep a))) ∧
    ("team_url" ∈ fields → ∃ a v, cssFirst isA team = some a ∧
      getAttr a "href" = some v ∧
      ∀ r ∈ rows, dictGet r "team_url" = some (optToValue v)) ∧
    ("team_name" ∈ fields → ∀ r1 ∈ rows, ∀ r2 ∈ rows,
      dictGet r1 "team_name" = dictGet r2 "team_name") ∧
    ("team_url" ∈ fields → ∀ r1 ∈ rows, ∀ r2 ∈ rows,
      dictGet r1 "team_url" = dictGet r2 "team_url") := by
  have hb := perTeam_ok_broadcast h
  refine ⟨hb.1, hb.2, ?_, ?_⟩
  · intro hm r1 h1 r2 h2
    obtain ⟨a, _, hall⟩ := hb.1 hm
    rw [hall r1 h1, hall r2 h2]
  · intro hm r1 h1 r2 h2
    obtain ⟨a, v, _, _, hall⟩ := hb.2 hm
    rw [hall r1 h1, hall r2 h2]

/-- Witness for C6: both records of the first example team carry the
team's anchor text as `team_name` and equal `team_url` values. -/
theorem claim_team_broadcast_witness :
    dictGet exTeamRec1 "team_name" = some (Value.vstr "Alpha") ∧
    dictGet exTeamRec2 "team_name" = some (Value.vstr "Alpha") ∧
    dictGet exTeamRec1 "team_url" = dictGet exTeamRec2 "team_url" := by
  have hb := @claim_team_broadcast availableFields exTeam1 exTeamRows1 rfl
  obtain ⟨a, ha, hall⟩ := hb.1 (by decide)
  have haEq : a = exTeamA1 := by
    have h0 : cssFirst isA exTeam1 = some exTeamA1 := rfl
    rw [h0] at ha
    exact (Option.some.inj ha).symm
  subst haEq
  refine ⟨?_, ?_, ?_⟩
  · exact hall exTeamRec1 (by simp [exTeamRows1])
  · exact hall exTeamRec2 (by simp [exTeamRows1])
  · exact hb.2.2.2 (by decide) exTeamRec1 (by simp [exTeamRows1])
      exTeamRec2 (by simp [exTeamRows1])

/-- C7: for every document and every valid request, every record of one
`startlist` call has the same key set, namely the validated effective
field set. -/
theorem claim_field_set_closure {doc : Node} {args fields : List String}
    {t : List Record}
    (hparse : parse_table_fields_args args availableFields = Except.ok fields)
    (hok : startlist doc args = Except.ok t) :
    ∀ r ∈ t, ∀ k, (k ∈ keys r ↔ k ∈ fields) := by
  have hsub := parse_ok_subset hparse
  simp only [startlist, hparse] at hok
  split at hok
  · cases hok
  · split at hok
    · split at hok
      · cases hok
      · simp only [individualTable] at hok
        intro r hr
        obtain ⟨p, _, hrow⟩ := mapE_ok_mem hok hr
        exact individualRow_ok_keys hrow
    · split at hok
      · cases hok
      · rename_i ts hts
        cases hok
        intro r hr k
        rw [List.mem_flatten] at hr
        obtain ⟨rows, hrows, hrrows⟩ := hr
        obtain ⟨team, _, hteam⟩ := mapE_ok_mem hts hrows
        exact perTeam_ok_keys hsub hteam r hrrows k

/-- Witness for C7: in the team example with all fields requested, a
supported key is present and an unsupported key is absent, matching the
effective field set. -/
theorem claim_field_set_closure_witness :
    ("rider_name" ∈ keys exTeamRec1 ↔ "rider_name" ∈ availableFields) ∧
    ("captain_name" ∈ keys exTeamRec1 ↔ "captain_name" ∈ availableFields) := by
  have h := @claim_field_set_closure exDocTeam [] availableFields
    exTeamTable rfl rfl
  exact ⟨h exTeamRec1 (by simp [exTeamTable]) "rider_name",
         h exTeamRec1 (by simp [exTeamTable]) "captain_name"⟩

/-- C8: any request containing a field name outside the supported
vocabulary fails with a `ValueError` naming the offending field(s),
before any document is inspected and producing no records. -/
theorem claim_unsupported_field {doc : Node} {args : List String} {a : String}
    (hmem : a ∈ args) (hnot : a ∉ availableFields) :
    startlist doc args = Except.error (PyErr.valueError
      (", ".intercalate
        (args.filter (fun x => decide (x ∉ availableFields))))) := by
  have hp := parse_bad hmem hnot
  simp only [startlist, hp]

/-- Witness for C8: requesting the unsupported `captain_name` fails with
an error naming it, on any document. -/
theorem claim_unsupported_field_witness :
    startlist exDocTeam ["captain_name", "rider_name"] =
      Except.error (PyErr.valueError "captain_name") :=
  @claim_unsupported_field exDocTeam ["captain_name", "rider_name"]
    "captain_name" (by decide) (by decide)

/-- C9: every successful canonicalization has the shape
`race/{race_id}/{year}/startlist` with the year segment (and its
separator) omitted when the URL carries no 4-digit year; URLs differing
only in scheme/host, trailing slash, extra trailing segments or query
string normalize to the same identity. -/
theorem claim_canonical_identity :
    (∀ url s, canonicalize url = Except.ok s →
      ∃ rid, s = "race/" ++ rid ++ "/startlist" ∨
        ∃ y, is4DigitYear y = true ∧
          s = "race/" ++ rid ++ "/" ++ y ++ "/startlist") ∧
    canonicalize "https://example.org/race/tour-de-france/2021/startlist" =
      Except.ok "race/tour-de-france/2021/startlist" ∧
    canonicalize "race/vuelta-a-espana/startlist/" =
      Except.ok "race/vuelta-a-espana/startlist" ∧
    canonicalize "race/tour-de-france/2021/startlist/result?foo=1" =
      Except.ok "race/tour-de-france/2021/startlist" ∧
    canonicalize
        "https://www.procyclingstats.com/race/tour-de-france/2021/stage-7/startlist" =
      Except.ok "race/tour-de-france/2021/startlist" := by
  refine ⟨?_, rfl, rfl, rfl, rfl⟩
  intro url s h
  simp only [canonicalize] at h
  split at h
  · cases h
  · cases h
  · rename_i rid rest hafter
    split at h
    · cases h
      exact ⟨rid, Or.inl rfl⟩
    · rename_i y hy
      cases h
      exact ⟨rid, Or.inr ⟨y, findYear_is4 hy, rfl⟩⟩

/-- Witness for C9: a yearless canonical identity produced by the
canonicalizer has the stated shape. -/
theorem claim_canonical_identity_witness :
    ∃ rid, "race/giro-d-italia/startlist" = "race/" ++ rid ++ "/startlist" ∨
      ∃ y, is4DigitYear y = true ∧
        "race/giro-d-italia/startlist" =
          "race/" ++ rid ++ "/" ++ y ++ "/startlist" :=
  claim_canonical_identity.1 "race/giro-d-italia/startlist"
    "race/giro-d-italia/startlist" rfl

/-- C10: when the parsed document has no `.startlist_v3` element, or is
in individual layout but has no `.page-content > div` element, the call
fails with the modelled `AttributeError` (Python attribute access on
`None`) rather than returning an empty sequence or a structured error. -/
theorem claim_missing_node_error {doc : Node} {args fields : List String}
    (hparse : parse_table_fields_args args availableFields = Except.ok fields) :
    (cssFirst isStartlistV3 doc = Option.none →
      startlist doc args = Except.error PyErr.attributeError) ∧
    (∀ sh, cssFirst isStartlistV3 doc = some sh →
      cssFirst isTeamLi sh = Option.none →
      (selectChild isPageContent isDiv doc).head? = Option.none →
      startlist doc args = Except.error PyErr.attributeError) := by
  constructor
  · intro h0
    simp [startlist, hparse, h0]
  · intro sh h1 h2 h3
    simp [startlist, hparse, h1, h2, h3]

/-- Witness for C10: a document without `.startlist_v3`, and one with an
individual-layout startlist but no `.page-content > div`, both raise the
`AttributeError`. -/
theorem claim_missing_node_error_witness :
    startlist exDocNoStartlist [] = Except.error PyErr.attributeError ∧
    startlist exDocNoContainer [] = Except.error PyErr.attributeError :=
  ⟨(@claim_missing_node_error exDocNoStartlist [] availableFields rfl).1 rfl,
   (@claim_missing_node_error exDocNoContainer [] availableFields rfl).2
     exStartlistInd rfl rfl rfl⟩
